import Mathlib

/-!
Verification of the plugin-host core: a shallow embedding of the Go sources
(client proxy, server skeleton, lifecycle supervisor, health monitor,
configuration loading and the process launcher) together with theorems about
the behaviours the specification describes.

Go conventions used throughout the embedding:
* a Go `error` value is `Option String` (`none` is the nil error, `some msg`
  an error whose `Error()` message is `msg`);
* a Go `map[string]T` read is an association-list lookup (`mapLookup`); the
  iteration order of a Go map is arbitrary, so a map being iterated is
  embedded as a list in an arbitrary but fixed order;
* `float` fields that are merely carried through (progress percentages,
  metric values) are embedded as `Rat`; no claim depends on rounding.
-/

namespace PluginApp

/-- Go error values: `none` is nil, `some msg` a non-nil error with message `msg`. -/
abbrev GoError := String

/-- Read of a Go `map[string]T`: first binding wins (Go maps have unique keys). -/
def mapLookup {α : Type} : List (String × α) → String → Option α
  | [], _ => none
  | (k, v) :: rest, key => if k = key then some v else mapLookup rest key

/-- ParameterSpec from pkg/plugin types: one schema entry. -/
structure ParameterSpec where
  name : String
  description : String
  required : Bool
  defaultValue : String
  typeTag : String
  allowedValues : List String
  deriving DecidableEq, Repr

/-- Structured form of the error returned by Client.ValidateParameters: the Go
    code returns `fmt.Errorf` messages that embed the offending parameter name
    (and, for a disallowed value, the value and the allowed set). -/
inductive ValidationError where
  | missingRequired (name : String)
  | invalidValue (name value : String) (allowed : List String)
  deriving DecidableEq, Repr

/-- Client.ValidateParameters from the client proxy: iterate over the schema
    entries (Go map order is arbitrary; the list fixes one order); for each,
    a required entry must be present, and a present value must be a member of
    a non-empty allowed-values list. `none` means validation passed. -/
def validateParameters : List (String × ParameterSpec) → List (String × String) →
    Option ValidationError
  | [], _ => none
  | (name, spec) :: rest, params =>
    match mapLookup params name with
    | none =>
      if spec.required then some (ValidationError.missingRequired name)
      else validateParameters rest params
    | some value =>
      if spec.allowedValues ≠ [] ∧ value ∉ spec.allowedValues then
        some (ValidationError.invalidValue name value spec.allowedValues)
      else validateParameters rest params

/-- The constraint the schema places on one entry of the parameter map. -/
def entryOk (params : List (String × String)) (p : String × ParameterSpec) : Prop :=
  (p.2.required = true → (mapLookup params p.1).isSome) ∧
    (∀ v, mapLookup params p.1 = some v → p.2.allowedValues ≠ [] →
      v ∈ p.2.allowedValues)

/-- The returned validation error really names an offending parameter. -/
def errNamesOffender (schema : List (String × ParameterSpec))
    (params : List (String × String)) : ValidationError → Prop
  | ValidationError.missingRequired n =>
      ∃ spec, (n, spec) ∈ schema ∧ spec.required = true ∧ mapLookup params n = none
  | ValidationError.invalidValue n v allowed =>
      ∃ spec, (n, spec) ∈ schema ∧ mapLookup params n = some v ∧
        allowed = spec.allowedValues ∧ allowed ≠ [] ∧ v ∉ allowed

theorem vp_cons_missing {name : String} {spec : ParameterSpec}
    {tl : List (String × ParameterSpec)} {params : List (String × String)}
    (hlk : mapLookup params name = none) (hreq : spec.required = true) :
    validateParameters ((name, spec) :: tl) params =
      some (ValidationError.missingRequired name) := by
  simp [validateParameters, hlk, hreq]

theorem vp_cons_notRequired {name : String} {spec : ParameterSpec}
    {tl : List (String × ParameterSpec)} {params : List (String × String)}
    (hlk : mapLookup params name = none) (hreq : spec.required = false) :
    validateParameters ((name, spec) :: tl) params = validateParameters tl params := by
  simp [validateParameters, hlk, hreq]

theorem vp_cons_bad {name : String} {spec : ParameterSpec} {value : String}
    {tl : List (String × ParameterSpec)} {params : List (String × String)}
    (hlk : mapLookup params name = some value)
    (hbad : spec.allowedValues ≠ [] ∧ value ∉ spec.allowedValues) :
    validateParameters ((name, spec) :: tl) params =
      some (ValidationError.invalidValue name value spec.allowedValues) := by
  simp only [validateParameters, hlk, if_pos hbad]

theorem vp_cons_good {name : String} {spec : ParameterSpec} {value : String}
    {tl : List (String × ParameterSpec)} {params : List (String × String)}
    (hlk : mapLookup params name = some value)
    (hok : ¬(spec.allowedValues ≠ [] ∧ value ∉ spec.allowedValues)) :
    validateParameters ((name, spec) :: tl) params = validateParameters tl params := by
  simp only [validateParameters, hlk, if_neg hok]

theorem errNamesOffender_mono {tl : List (String × ParameterSpec)}
    {params : List (String × String)} {e : ValidationError}
    (hd : String × ParameterSpec) (h : errNamesOffender tl params e) :
    errNamesOffender (hd :: tl) params e := by
  cases e with
  | missingRequired n =>
    obtain ⟨s, hs, hr, hl⟩ := h
    exact ⟨s, List.mem_cons_of_mem _ hs, hr, hl⟩
  | invalidValue n v allowed =>
    obtain ⟨s, hs, h1, h2, h3, h4⟩ := h
    exact ⟨s, List.mem_cons_of_mem _ hs, h1, h2, h3, h4⟩

theorem validateParameters_ok_iff (schema : List (String × ParameterSpec))
    (params : List (String × String)) :
    validateParameters schema params = none ↔ ∀ p ∈ schema, entryOk params p := by
  induction schema with
  | nil => simp [validateParameters]
  | cons hd tl ih =>
    obtain ⟨name, spec⟩ := hd
    simp only [List.mem_cons, forall_eq_or_imp]
    cases hlk : mapLookup params name with
    | none =>
      cases hreq : spec.required with
      | true =>
        rw [vp_cons_missing hlk hreq]
        constructor
        · intro h; cases h
        · rintro ⟨⟨h1, _⟩, _⟩
          have := h1 hreq
          simp [hlk] at this
      | false =>
        rw [vp_cons_notRequired hlk hreq, ih]
        constructor
        · intro h
          refine ⟨⟨?_, ?_⟩, fun p hp => h p hp⟩
          · intro hr; rw [hreq] at hr; cases hr
          · intro v hv; rw [hlk] at hv; cases hv
        · exact fun h p hp => h.2 p hp
    | some value =>
      by_cases hbad : spec.allowedValues ≠ [] ∧ value ∉ spec.allowedValues
      · rw [vp_cons_bad hlk hbad]
        constructor
        · intro h; cases h
        · rintro ⟨⟨_, h2⟩, _⟩
          exact absurd (h2 value hlk hbad.1) hbad.2
      · rw [vp_cons_good hlk hbad, ih]
        constructor
        · intro h
          refine ⟨⟨fun _ => by rw [hlk]; rfl, ?_⟩, fun p hp => h p hp⟩
          intro v hv hne
          rw [hlk] at hv
          cases hv
          by_cases hmem : value ∈ spec.allowedValues
          · exact hmem
          · exact absurd ⟨hne, hmem⟩ hbad
        · exact fun h p hp => h.2 p hp

theorem validateParameters_some_offender (schema : List (String × ParameterSpec))
    (params : List (String × String)) (e : ValidationError)
    (h : validateParameters schema params = some e) :
    errNamesOffender schema params e := by
  induction schema with
  | nil => simp [validateParameters] at h
  | cons hd tl ih =>
    obtain ⟨name, spec⟩ := hd
    cases hlk : mapLookup params name with
    | none =>
      cases hreq : spec.required with
      | true =>
        rw [vp_cons_missing hlk hreq] at h
        injection h with h
        subst h
        exact ⟨spec, List.mem_cons_self _ _, hreq, hlk⟩
      | false =>
        rw [vp_cons_notRequired hlk hreq] at h
        exact errNamesOffender_mono _ (ih h)
    | some value =>
      by_cases hbad : spec.allowedValues ≠ [] ∧ value ∉ spec.allowedValues
      · rw [vp_cons_bad hlk hbad] at h
        injection h with h
        subst h
        exact ⟨spec, List.mem_cons_self _ _, hlk, rfl, hbad.1, hbad.2⟩
      · rw [vp_cons_good hlk hbad] at h
        exact errNamesOffender_mono _ (ih h)

/-- C5: Client.ValidateParameters returns ok exactly when every required schema
    entry is present and every present value with a non-empty allowed-values
    list is (case-sensitively) one of the listed strings; when it returns an
    error, the error names an offending parameter of the schema. -/
theorem c5_validateParameters_correct (schema : List (String × ParameterSpec))
    (params : List (String × String)) :
    (validateParameters schema params = none ↔ ∀ p ∈ schema, entryOk params p) ∧
    (∀ e, validateParameters schema params = some e → errNamesOffender schema params e) :=
  ⟨validateParameters_ok_iff schema params,
   fun e h => validateParameters_some_offender schema params e h⟩

def specLang : ParameterSpec :=
  { name := "language", description := "", required := true, defaultValue := "en"
    typeTag := "string", allowedValues := ["en", "es", "fr"] }

theorem c5_witness :
    errNamesOffender [("language", specLang)] [("language", "jp")]
      (ValidationError.invalidValue "language" "jp" ["en", "es", "fr"]) :=
  (c5_validateParameters_correct [("language", specLang)] [("language", "jp")]).2
    (ValidationError.invalidValue "language" "jp" ["en", "es", "fr"]) (by decide)

theorem mapLookup_append_not_mem {α : Type} (params extra : List (String × α))
    (n : String) (h : ∀ p ∈ extra, p.1 ≠ n) :
    mapLookup (params ++ extra) n = mapLookup params n := by
  induction params with
  | nil =>
    simp only [List.nil_append, mapLookup]
    induction extra with
    | nil => simp [mapLookup]
    | cons hd tl ih =>
      simp only [mapLookup]
      rw [if_neg (h hd (List.mem_cons_self _ _))]
      exact ih (fun p hp => h p (List.mem_cons_of_mem _ hp))
  | cons hd tl ih =>
    simp only [List.cons_append, mapLookup]
    by_cases hk : hd.1 = n
    · simp [hk]
    · simp only [hk, if_neg]
      exact ih

/-- C10: adding parameters whose names are outside the schema never changes the
    outcome of Client.ValidateParameters, because only schema-listed names are
    looked up by the required and allowed-values checks. -/
theorem c10_extra_params_ignored (schema : List (String × ParameterSpec))
    (params extra : List (String × String))
    (h : ∀ p ∈ extra, ∀ q ∈ schema, p.1 ≠ q.1) :
    validateParameters schema (params ++ extra) = validateParameters schema params := by
  induction schema with
  | nil => simp [validateParameters]
  | cons hd tl ih =>
    obtain ⟨name, spec⟩ := hd
    simp only [validateParameters]
    rw [mapLookup_append_not_mem params extra name
      (fun p hp => h p hp (name, spec) (List.mem_cons_self _ _))]
    cases mapLookup params name with
    | none =>
      by_cases hreq : spec.required
      · simp [hreq]
      · simp only [hreq, if_false]
        exact ih (fun p hp q hq => h p hp q (List.mem_cons_of_mem _ hq))
    | some value =>
      by_cases hbad : spec.allowedValues ≠ [] ∧ value ∉ spec.allowedValues
      · simp [hbad]
      · simp only [if_neg hbad]
        exact ih (fun p hp q hq => h p hp q (List.mem_cons_of_mem _ hq))

theorem c10_witness :
    validateParameters [("language", specLang)]
        ([("language", "en")] ++ [("verbose", "true")]) =
      validateParameters [("language", specLang)] [("language", "en")] :=
  c10_extra_params_ignored [("language", specLang)] [("language", "en")]
    [("verbose", "true")] (by decide)

/-- Progress payload of an execution frame (proto Progress); the wire float is
    embedded as a rational. -/
structure Progress where
  percentComplete : Rat
  stage : String
  currentStep : Int
  totalSteps : Int
  deriving DecidableEq, Repr

/-- One ExecuteOutput frame: the proto oneof of output text, an error, or a
    progress report. -/
inductive Frame where
  | output (text : String)
  | error (code message details : String)
  | progress (p : Progress)
  deriving DecidableEq, Repr

/-- How the Execute stream ends when the frames run out: a clean EOF or a
    transport receive error. -/
inductive Terminal where
  | eof
  | recvError (msg : String)
  deriving DecidableEq, Repr

/-- The plugin.OutputHandler interface: each method returns a Go error value. -/
structure OutputHandler where
  onOutput : String → Option GoError
  onProgress : Progress → Option GoError
  onError : String → String → String → Option GoError

/-- One observed call into the caller-provided sink. -/
inductive HandlerCall where
  | onOutput (text : String)
  | onProgress (p : Progress)
  | onError (code message details : String)
  deriving DecidableEq, Repr

/-- Result of one Client.Execute run: the sink calls it made, in order, and the
    Go error it returned (`none` is the nil error). -/
structure ExecResult where
  calls : List HandlerCall
  result : Option GoError
  deriving DecidableEq, Repr

/-- Receive loop of Client.Execute from the client proxy: drain frames in
    order; on Output or Progress dispatch to the sink and abort with a wrapped
    error if the sink errs; on an Error frame call the sink's OnError and
    return its value directly (the loop reads no further frames); EOF returns
    nil and a receive failure returns a wrapped error. -/
def clientExecuteLoop (handler : OutputHandler) :
    List Frame → Terminal → ExecResult
  | [], Terminal.eof => { calls := [], result := none }
  | [], Terminal.recvError msg =>
    { calls := [], result := some ("error receiving output: " ++ msg) }
  | Frame.output text :: rest, t =>
    match handler.onOutput text with
    | some e =>
      { calls := [HandlerCall.onOutput text]
        result := some ("error handling output: " ++ e) }
    | none =>
      let r := clientExecuteLoop handler rest t
      { calls := HandlerCall.onOutput text :: r.calls, result := r.result }
  | Frame.error code message details :: _, _ =>
    { calls := [HandlerCall.onError code message details]
      result := handler.onError code message details }
  | Frame.progress p :: rest, t =>
    match handler.onProgress p with
    | some e =>
      { calls := [HandlerCall.onProgress p]
        result := some ("error handling progress: " ++ e) }
    | none =>
      let r := clientExecuteLoop handler rest t
      { calls := HandlerCall.onProgress p :: r.calls, result := r.result }

/-- Client.Execute: open the stream (may fail) and run the receive loop. -/
def clientExecute (handler : OutputHandler) (openErr : Option GoError)
    (frames : List Frame) (t : Terminal) : ExecResult :=
  match openErr with
  | some e => { calls := [], result := some ("failed to start execution: " ++ e) }
  | none => clientExecuteLoop handler frames t

/-- The application's outputHandler from the ui package: every method logs and
    returns the nil error. -/
def uiOutputHandler : OutputHandler :=
  { onOutput := fun _ => none
    onProgress := fun _ => none
    onError := fun _ _ _ => none }

/-- C1 counterexample: with the application's sink (whose on_error returns
    nil), an Execute stream ending in an Error frame makes the proxy return the
    nil error — not a non-nil terminal error tagged already-surfaced — even
    though the sink did receive exactly one on_error call. -/
theorem c1_counterexample :
    (clientExecute uiOutputHandler none
        [Frame.output "step", Frame.error "EXECUTION_ERROR" "boom" ""]
        Terminal.eof).result = none ∧
    (clientExecute uiOutputHandler none
        [Frame.output "step", Frame.error "EXECUTION_ERROR" "boom" ""]
        Terminal.eof).calls =
      [HandlerCall.onOutput "step",
       HandlerCall.onError "EXECUTION_ERROR" "boom" ""] :=
  ⟨rfl, rfl⟩

/-- The sink accepts every frame of the list: non-error frames on which the
    handler returns the nil error. -/
def acceptsFrames (handler : OutputHandler) (fs : List Frame) : Prop :=
  ∀ f ∈ fs, match f with
  | Frame.output text => handler.onOutput text = none
  | Frame.progress p => handler.onProgress p = none
  | Frame.error _ _ _ => False

/-- The sink call a frame is dispatched to. -/
def frameToCall : Frame → HandlerCall
  | Frame.output text => HandlerCall.onOutput text
  | Frame.progress p => HandlerCall.onProgress p
  | Frame.error code message details => HandlerCall.onError code message details

/-- Test for an on_error sink call. -/
def isOnErrorCall : HandlerCall → Bool
  | HandlerCall.onError _ _ _ => true
  | _ => false

theorem acceptsFrames_map_no_onError (handler : OutputHandler) (fs : List Frame)
    (h : acceptsFrames handler fs) :
    (fs.map frameToCall).filter isOnErrorCall = [] := by
  induction fs with
  | nil => rfl
  | cons f rest ih =>
    have hf := h f (List.mem_cons_self _ _)
    have hrest : acceptsFrames handler rest :=
      fun g hg => h g (List.mem_cons_of_mem _ hg)
    cases f with
    | output text =>
      simp only [List.map_cons, List.filter_cons, frameToCall, isOnErrorCall]
      exact ih hrest
    | progress p =>
      simp only [List.map_cons, List.filter_cons, frameToCall, isOnErrorCall]
      exact ih hrest
    | error code message details => exact absurd hf (by simp [acceptsFrames])

/-- C1 amended: when the stream reaches an Error frame after frames the sink
    accepted, the proxy calls on_error exactly once with that frame's code,
    message and details, reads no further frames, and returns exactly the value
    the sink's on_error returned (nil — treated as success — when the sink
    returns nil); no already-surfaced tagging is applied on the host side. -/
theorem c1_error_frame_behaviour (handler : OutputHandler) (pre : List Frame)
    (code message details : String) (rest : List Frame) (t : Terminal)
    (h : acceptsFrames handler pre) :
    (clientExecute handler none
        (pre ++ Frame.error code message details :: rest) t).result =
      handler.onError code message details ∧
    (clientExecute handler none
        (pre ++ Frame.error code message details :: rest) t).calls =
      pre.map frameToCall ++ [HandlerCall.onError code message details] := by
  induction pre with
  | nil => exact ⟨rfl, rfl⟩
  | cons f fs ih =>
    have hf := h f (List.mem_cons_self _ _)
    have hfs : acceptsFrames handler fs :=
      fun g hg => h g (List.mem_cons_of_mem _ hg)
    obtain ⟨ih1, ih2⟩ := ih hfs
    cases f with
    | output text =>
      have hout : handler.onOutput text = none := hf
      constructor
      · simpa only [clientExecute, List.cons_append, clientExecuteLoop, hout]
          using ih1
      · simp only [clientExecute, List.cons_append, clientExecuteLoop, hout,
          List.map_cons]
        simpa only [clientExecute] using congrArg (HandlerCall.onOutput text :: ·) ih2
    | progress p =>
      have hprog : handler.onProgress p = none := hf
      constructor
      · simpa only [clientExecute, List.cons_append, clientExecuteLoop, hprog]
          using ih1
      · simp only [clientExecute, List.cons_append, clientExecuteLoop, hprog,
          List.map_cons]
        simpa only [clientExecute] using congrArg (HandlerCall.onProgress p :: ·) ih2
    | error c m d => exact absurd hf (by simp [acceptsFrames])

/-- PluginType constants from pkg/plugin config. -/
def PluginTypeBinary : String := "binary"

def PluginTypeCommand : String := "command"

def PluginTypeRemote : String := "remote"

/-- PluginConfig from pkg/plugin config: one catalog descriptor. The maps are
    embedded as association lists in an arbitrary but fixed order. -/
structure PluginConfig where
  path : String
  port : Int
  type : String
  command : String
  address : String
  description : String
  defaults : List (String × String)
  workingDir : String
  environment : List (String × String)
  deriving DecidableEq, Repr

/-- Formatting of one extra parameter as a command-line token. -/
def fmtArg (kv : String × String) : String := "--" ++ kv.1 ++ "=" ++ kv.2

/-- Accumulating pass of Go strings.Fields over the character data. -/
def goFieldsChars : List Char → List Char → List String
  | [], acc => if acc = [] then [] else [⟨acc.reverse⟩]
  | c :: rest, acc =>
    if c.isWhitespace then
      if acc = [] then goFieldsChars rest []
      else (⟨acc.reverse⟩ : String) :: goFieldsChars rest []
    else goFieldsChars rest (c :: acc)

/-- Go strings.Fields: split around runs of whitespace, dropping empty parts. -/
def goFields (s : String) : List String := goFieldsChars s.data []

/-- PluginConfig.GetStartCommand: for a binary plugin, the path plus
    `-port <port>` and one `--k=v` token per extra parameter; for a command
    plugin, substitute the braced port, path and args placeholders into the
    template and whitespace-split the result (empty result is an error). -/
def PluginConfig.getStartCommand (p : PluginConfig) (port : Int)
    (args : List (String × String)) : Except GoError (String × List String) :=
  let argSlice := args.map fmtArg
  let argString := String.intercalate " " argSlice
  if p.type = PluginTypeBinary then
    Except.ok (p.path, ["-port", toString port] ++ argSlice)
  else if p.type = PluginTypeCommand then
    if p.command = "" then
      Except.error "command template not specified for command-type plugin"
    else
      let cmd := ((p.command.replace "{port}" (toString port)).replace
        "{path}" p.path).replace "{args}" argString
      match goFields cmd with
      | [] => Except.error "empty command after template substitution"
      | c :: restArgs => Except.ok (c, restArgs)
  else Except.error ("unsupported plugin type: " ++ p.type)

/-- Handle fields the restart-budget model tracks for one ManagedPlugin. -/
structure HandleState where
  restartCnt : Nat
  lastError : Option GoError
  deriving DecidableEq, Repr

/-- Effect of PluginManager.restartPlugin on the tracked handle fields: every
    failure path records last_error; no path reads or writes restart_count.
    The relaunch outcome (nil on success, the failure message otherwise) is an
    oracle input. -/
def restartPluginState (s : HandleState) (outcome : Option GoError) : HandleState :=
  match outcome with
  | some e => { s with lastError := some e }
  | none => s

/-- The OnUnhealthy callback installed by EnableHealthCheck: record last_error;
    only when restart_count < 3, increment it and run restartPlugin. The Bool
    reports whether a restart was attempted. -/
def onUnhealthy (s : HandleState) (err : GoError)
    (restartOutcome : Option GoError) : HandleState × Bool :=
  let s1 : HandleState := { s with lastError := some err }
  if s1.restartCnt < 3 then
    (restartPluginState { s1 with restartCnt := s1.restartCnt + 1 } restartOutcome,
     true)
  else (s1, false)

/-- Fold a sequence of unhealthy notifications (each paired with the outcome
    the relaunch would produce) over the handle, counting attempted restarts. -/
def runUnhealthySeq (s : HandleState) :
    List (GoError × Option GoError) → HandleState × Nat
  | [] => (s, 0)
  | (err, out) :: rest =>
    let step := onUnhealthy s err out
    let tail := runUnhealthySeq step.1 rest
    (tail.1, (if step.2 then 1 else 0) + tail.2)

theorem restartPluginState_cnt (s : HandleState) (out : Option GoError) :
    (restartPluginState s out).restartCnt = s.restartCnt := by
  cases out <;> rfl

theorem runUnhealthySeq_bound (evs : List (GoError × Option GoError)) :
    ∀ s : HandleState, (runUnhealthySeq s evs).2 + min s.restartCnt 3 ≤ 3 := by
  induction evs with
  | nil => intro s; simp [runUnhealthySeq]
  | cons ev rest ih =>
    intro s
    obtain ⟨err, out⟩ := ev
    obtain ⟨cnt, le⟩ := s
    by_cases hc : cnt < 3
    · have h1 : onUnhealthy ⟨cnt, le⟩ err out =
          (restartPluginState ⟨cnt + 1, some err⟩ out, true) := by
        simp [onUnhealthy, hc]
      have h2 : (restartPluginState ⟨cnt + 1, some err⟩ out).restartCnt =
          cnt + 1 := by
        rw [restartPluginState_cnt]
      have h3 := ih (restartPluginState ⟨cnt + 1, some err⟩ out)
      rw [h2] at h3
      simp only [runUnhealthySeq, h1]
      simp
      omega
    · have h1 : onUnhealthy ⟨cnt, le⟩ err out = (⟨cnt, some err⟩, false) := by
        simp [onUnhealthy, hc]
      have h3 : (runUnhealthySeq ⟨cnt, some err⟩ rest).2 + min cnt 3 ≤ 3 :=
        ih ⟨cnt, some err⟩
      simp only [runUnhealthySeq, h1]
      simp
      omega

/-- C3: the restart budget. The relaunch never touches restart_count, a fresh
    handle sees at most 3 autonomous restarts over any sequence of unhealthy
    notifications, and once restart_count has reached 3 each further
    notification only records last_error and triggers no restart. -/
theorem c3_restart_budget :
    (∀ (s : HandleState) (out : Option GoError),
      (restartPluginState s out).restartCnt = s.restartCnt) ∧
    (∀ evs : List (GoError × Option GoError),
      (runUnhealthySeq { restartCnt := 0, lastError := none } evs).2 ≤ 3) ∧
    (∀ (s : HandleState) (err : GoError) (out : Option GoError),
      3 ≤ s.restartCnt →
      onUnhealthy s err out = ({ s with lastError := some err }, false)) := by
  refine ⟨restartPluginState_cnt, ?_, ?_⟩
  · intro evs
    have := runUnhealthySeq_bound evs { restartCnt := 0, lastError := none }
    simpa using this
  · intro s err out h
    have hc : ¬ s.restartCnt < 3 := by omega
    simp [onUnhealthy, hc]

theorem c3_witness :
    (runUnhealthySeq { restartCnt := 0, lastError := none }
        [("e1", none), ("e2", some "relaunch failed"), ("e3", none),
         ("e4", none), ("e5", none)]).2 ≤ 3 ∧
    onUnhealthy { restartCnt := 3, lastError := none } "down" none =
      ({ restartCnt := 3, lastError := some "down" }, false) :=
  ⟨c3_restart_budget.2.1 [("e1", none), ("e2", some "relaunch failed"),
      ("e3", none), ("e4", none), ("e5", none)],
   c3_restart_budget.2.2 { restartCnt := 3, lastError := none } "down" none
      (by decide)⟩

/-- Supervisor-held record for one active plugin (the fields the model
    tracks); hasProcess is whether a local child process handle exists. -/
structure ManagedPlugin where
  name : String
  config : PluginConfig
  hasProcess : Bool
  restartCnt : Nat
  lastError : Option GoError
  params : List (String × String)
  deriving DecidableEq, Repr

/-- The supervisor state: the name-to-handle map. -/
structure SupervisorState where
  plugins : List (String × ManagedPlugin)
  deriving DecidableEq, Repr

/-- Externally visible side effects of a start attempt. -/
inductive Effect where
  | spawnProcess (path : String) (args : List String)
  | dialRemote (address : String)
  | dialLocal (port : Int)
  | killProcess
  | startHealthMonitor (name : String)
  deriving DecidableEq, Repr

/-- Oracle for the environment-dependent outcomes during a start: the remote
    dial, the process spawn, and each local dial attempt (nil is success). -/
structure LaunchOracle where
  remoteDial : Option GoError
  processStart : Option GoError
  localDial : Nat → Option GoError

/-- Readiness loop of StartPlugin: up to `fuel` dial attempts (the source
    uses 5), stopping at the first success; the returned error is the one of
    the last attempt made. The fuel-0 base keeps the nil initialisation of the
    Go error variable and is unreachable from the initial fuel of 5. -/
def dialAttempts (o : LaunchOracle) (port : Int) :
    Nat → Nat → List Effect × Option GoError
  | 0, _ => ([], none)
  | fuel + 1, i =>
    match o.localDial i with
    | none => ([Effect.dialLocal port], none)
    | some e =>
      let r := dialAttempts o port fuel (i + 1)
      (Effect.dialLocal port :: r.1, if fuel = 0 then some e else r.2)

/-- PluginManager.StartPlugin: reject a name already in the map; for a remote
    descriptor dial the address; for a local one build the start command,
    spawn the process and run the readiness loop, killing the child if the
    loop exhausts; on success store the new handle and, for local plugins,
    start the health monitor. Returns the new state, the effect trace and the
    Go error. -/
def startPlugin (pm : SupervisorState) (name : String)
    (pluginConfig : PluginConfig) (params : List (String × String))
    (o : LaunchOracle) : SupervisorState × List Effect × Option GoError :=
  match mapLookup pm.plugins name with
  | some _ => (pm, [], some ("plugin " ++ name ++ " is already running"))
  | none =>
    let config := pluginConfig
    if config.type = PluginTypeRemote then
      match o.remoteDial with
      | some e => (pm, [Effect.dialRemote config.address],
          some ("failed to connect to plugin " ++ name ++ ": " ++ e))
      | none =>
        let managed : ManagedPlugin := ⟨name, config, false, 0, none, params⟩
        ({ plugins := (name, managed) :: pm.plugins },
         [Effect.dialRemote config.address], none)
    else
      match config.getStartCommand config.port params with
      | Except.error e => (pm, [], some ("failed to get start command: " ++ e))
      | Except.ok cmdArgs =>
        match o.processStart with
        | some e => (pm, [Effect.spawnProcess cmdArgs.1 cmdArgs.2],
            some ("failed to start plugin " ++ name ++ ": " ++ e))
        | none =>
          let dial := dialAttempts o config.port 5 0
          match dial.2 with
          | some e =>
            (pm, Effect.spawnProcess cmdArgs.1 cmdArgs.2 ::
                dial.1 ++ [Effect.killProcess],
             some ("failed to connect to plugin " ++ name ++ ": " ++ e))
          | none =>
            let managed : ManagedPlugin := ⟨name, config, true, 0, none, params⟩
            ({ plugins := (name, managed) :: pm.plugins },
             Effect.spawnProcess cmdArgs.1 cmdArgs.2 ::
               dial.1 ++ [Effect.startHealthMonitor name], none)

/-- Names present in the supervisor map. -/
def keysOf {α : Type} (l : List (String × α)) : List String := l.map Prod.fst

theorem mapLookup_eq_none_iff {α : Type} (l : List (String × α)) (n : String) :
    mapLookup l n = none ↔ n ∉ keysOf l := by
  induction l with
  | nil => simp [mapLookup, keysOf]
  | cons hd tl ih =>
    obtain ⟨k, v⟩ := hd
    simp only [mapLookup, keysOf, List.map_cons, List.mem_cons]
    by_cases hk : k = n
    · simp [hk]
    · rw [if_neg hk, ih]
      simp only [keysOf]
      constructor
      · intro h
        rintro (h1 | h1)
        · exact hk h1.symm
        · exact h h1
      · intro h h1
        exact h (Or.inr h1)

theorem startPlugin_state_cases (pm : SupervisorState) (name : String)
    (config : PluginConfig) (params : List (String × String)) (o : LaunchOracle) :
    (startPlugin pm name config params o).1 = pm ∨
    (mapLookup pm.plugins name = none ∧ ∃ m : ManagedPlugin,
      (startPlugin pm name config params o).1 =
        { plugins := (name, m) :: pm.plugins }) := by
  simp only [startPlugin]
  cases hlk : mapLookup pm.plugins name with
  | some m => left; rfl
  | none =>
    by_cases ht : config.type = PluginTypeRemote
    · simp only [if_pos ht]
      cases o.remoteDial with
      | some e => left; rfl
      | none =>
        right
        exact ⟨by trivial, ⟨name, config, false, 0, none, params⟩, by rfl⟩
    · simp only [if_neg ht]
      cases config.getStartCommand config.port params with
      | error e => left; rfl
      | ok cmdArgs =>
        cases o.processStart with
        | some e => left; rfl
        | none =>
          cases (dialAttempts o config.port 5 0).2 with
          | some e => left; rfl
          | none =>
            right
            exact ⟨by trivial, ⟨name, config, true, 0, none, params⟩, by rfl⟩

/-- C4: at most one handle per name. A start for a name already in the map
    returns an error and leaves the state unchanged with no effects (no spawn,
    no dial, no map write), and every start preserves distinctness of the map
    keys. -/
theorem c4_single_handle_per_name (pm : SupervisorState) (name : String)
    (config : PluginConfig) (params : List (String × String)) (o : LaunchOracle) :
    ((mapLookup pm.plugins name).isSome →
      startPlugin pm name config params o =
        (pm, [], some ("plugin " ++ name ++ " is already running"))) ∧
    ((keysOf pm.plugins).Nodup →
      (keysOf (startPlugin pm name config params o).1.plugins).Nodup) := by
  constructor
  · intro h
    obtain ⟨m, hm⟩ := Option.isSome_iff_exists.1 h
    simp [startPlugin, hm]
  · intro hnd
    rcases startPlugin_state_cases pm name config params o with h | ⟨hnone, m, h⟩
    · rw [h]; exact hnd
    · rw [h]
      simp only [keysOf, List.map_cons]
      exact List.nodup_cons.2 ⟨(mapLookup_eq_none_iff _ _).1 hnone, hnd⟩

def cfgBin : PluginConfig :=
  { path := "/bin/hello", port := 50010, type := "binary", command := ""
    address := "", description := "", defaults := [], workingDir := "/"
    environment := [] }

def mpDemo : ManagedPlugin :=
  { name := "p", config := cfgBin, hasProcess := true, restartCnt := 0
    lastError := none, params := [] }

def oracleOk : LaunchOracle :=
  { remoteDial := none, processStart := none, localDial := fun _ => none }

theorem c4_witness :
    startPlugin { plugins := [("p", mpDemo)] } "p" cfgBin [] oracleOk =
      ({ plugins := [("p", mpDemo)] }, [],
       some ("plugin " ++ "p" ++ " is already running")) ∧
    (keysOf (startPlugin { plugins := [("p", mpDemo)] } "p" cfgBin []
        oracleOk).1.plugins).Nodup :=
  ⟨(c4_single_handle_per_name { plugins := [("p", mpDemo)] } "p" cfgBin []
      oracleOk).1 (by rfl),
   (c4_single_handle_per_name { plugins := [("p", mpDemo)] } "p" cfgBin []
      oracleOk).2 (by simp [keysOf])⟩

theorem c1_witness :
    (clientExecute uiOutputHandler none
        [Frame.output "a", Frame.error "E" "m" "d"] Terminal.eof).result =
      uiOutputHandler.onError "E" "m" "d" ∧
    (clientExecute uiOutputHandler none
        [Frame.output "a", Frame.error "E" "m" "d"] Terminal.eof).calls =
      [Frame.output "a"].map frameToCall ++ [HandlerCall.onError "E" "m" "d"] :=
  c1_error_frame_behaviour uiOutputHandler [Frame.output "a"] "E" "m" "d" []
    Terminal.eof (by intro f hf; rw [List.mem_singleton] at hf; subst hf; rfl)

/-- Prefix test on character lists (first argument is the candidate prefix). -/
def isPrefixChars : List Char → List Char → Bool
  | [], _ => true
  | _ :: _, [] => false
  | a :: as, b :: bs => a = b && isPrefixChars as bs

/-- Substring occurrence on character lists (needle, then haystack). -/
def containsChars (needle : List Char) : List Char → Bool
  | [] => isPrefixChars needle []
  | c :: rest => isPrefixChars needle (c :: rest) || containsChars needle rest

/-- Go strings.Contains, over the character data of the strings. -/
def containsSub (s pat : String) : Bool := containsChars pat.data s.data

/-- PluginConfig.Validate: switch on the type — local kinds need a non-empty
    path and a positive port, remote needs a non-empty address, anything else
    is unsupported — then command-type plugins additionally need a non-empty
    command template containing the braced port placeholder. -/
def PluginConfig.validate (p : PluginConfig) : Option GoError :=
  let switchCheck : Option GoError :=
    if p.type = PluginTypeBinary ∨ p.type = PluginTypeCommand then
      if p.path = "" then
        some ("path is required for " ++ p.type ++ " type plugins")
      else if p.port ≤ 0 then
        some ("invalid port for local plugin: " ++ toString p.port)
      else none
    else if p.type = PluginTypeRemote then
      if p.address = "" then some "address is required for remote-type plugins"
      else none
    else some ("unsupported plugin type: " ++ p.type)
  match switchCheck with
  | some e => some e
  | none =>
    if p.type = PluginTypeCommand then
      if p.command = "" then some "command is required for command-type plugins"
      else if ¬ containsSub p.command "{port}" then
        some "command must contain {port} placeholder"
      else none
    else none

/-- Go filepath.IsAbs on Unix: the path starts with a slash. -/
def isAbsPath (s : String) : Bool :=
  match s.data with
  | [] => false
  | c :: _ => c = '/'

/-- Join of the workspace root and a relative path. Go filepath.Join also runs
    Clean on the result; Clean is not modelled since nothing downstream
    depends on it beyond non-emptiness, which plain concatenation preserves. -/
def joinPath (root p : String) : String := root ++ "/" ++ p

/-- Split of a character list at every slash. -/
def splitSlash : List Char → List Char → List (List Char)
  | [], acc => [acc.reverse]
  | c :: rest, acc =>
    if c = '/' then acc.reverse :: splitSlash rest []
    else splitSlash rest (c :: acc)

/-- Join of path components with slashes. -/
def joinSlash : List (List Char) → List Char
  | [] => []
  | [x] => x
  | x :: y :: rest => x ++ '/' :: joinSlash (y :: rest)

/-- Go filepath.Dir without the final Clean: the path up to the last slash,
    "." when the path has none. Only the working-directory default uses it and
    no validation inspects the result. -/
def dirPath (s : String) : String :=
  let parts := splitSlash s.data []
  if parts.length ≤ 1 then "." else ⟨joinSlash parts.dropLast⟩

/-- Per-entry normalisation in LoadConfig: resolve a relative path and working
    directory against the workspace root, default an empty type to binary and
    an empty working directory to the path's directory. (The nil-map defaults
    for environment and defaults are identities on the association lists.) -/
def normalizeConfig (workspaceRoot : String) (c : PluginConfig) : PluginConfig :=
  let c1 := if ¬ isAbsPath c.path then
    { c with path := joinPath workspaceRoot c.path } else c
  let c2 := if c1.workingDir ≠ "" ∧ ¬ isAbsPath c1.workingDir then
    { c1 with workingDir := joinPath workspaceRoot c1.workingDir } else c1
  let c3 := if c2.type = "" then { c2 with type := PluginTypeBinary } else c2
  if c3.workingDir = "" then { c3 with workingDir := dirPath c3.path } else c3

/-- LoadConfig over the decoded catalog entries: normalise each descriptor,
    validate it, and fail on the first invalid one. -/
def loadConfig (workspaceRoot : String) :
    List (String × PluginConfig) → Except GoError (List (String × PluginConfig))
  | [] => Except.ok []
  | (name, c) :: rest =>
    let c1 := normalizeConfig workspaceRoot c
    match c1.validate with
    | some e => Except.error ("invalid configuration for plugin " ++ name ++ ": " ++ e)
    | none =>
      match loadConfig workspaceRoot rest with
      | Except.error e => Except.error e
      | Except.ok done => Except.ok ((name, c1) :: done)

/-- Success test on the embedded Except. -/
def isOkE {α : Type} : Except GoError α → Bool
  | Except.ok _ => true
  | Except.error _ => false

/-- The load invariants as the specification words them. -/
def loadInvariants (p : PluginConfig) : Prop :=
  (p.type = PluginTypeBinary ∨ p.type = PluginTypeCommand ∨
    p.type = PluginTypeRemote) ∧
  ((p.type = PluginTypeBinary ∨ p.type = PluginTypeCommand) →
    p.path ≠ "" ∧ 0 < p.port) ∧
  (p.type = PluginTypeCommand →
    p.command ≠ "" ∧ containsSub p.command "{port}" = true) ∧
  (p.type = PluginTypeRemote → p.address ≠ "")

theorem validate_iff_invariants (p : PluginConfig) :
    p.validate = none ↔ loadInvariants p := by
  by_cases hb : p.type = PluginTypeBinary
  · simp only [PluginConfig.validate, loadInvariants, hb, PluginTypeBinary,
      PluginTypeCommand, PluginTypeRemote]
    split_ifs <;> simp_all
  · by_cases hc : p.type = PluginTypeCommand
    · simp only [PluginConfig.validate, loadInvariants, hc, PluginTypeBinary,
        PluginTypeCommand, PluginTypeRemote]
      split_ifs <;> simp_all
    · by_cases hr : p.type = PluginTypeRemote
      · simp only [PluginConfig.validate, loadInvariants, hr, PluginTypeBinary,
          PluginTypeCommand, PluginTypeRemote]
        split_ifs <;> simp_all
      · simp only [PluginConfig.validate, loadInvariants]
        rw [if_neg (by tauto), if_neg hr]
        simp [hb, hc, hr]

theorem loadConfig_ok_iff (root : String) (entries : List (String × PluginConfig)) :
    isOkE (loadConfig root entries) = true ↔
      ∀ e ∈ entries, (normalizeConfig root e.2).validate = none := by
  induction entries with
  | nil => simp [loadConfig, isOkE]
  | cons hd rest ih =>
    obtain ⟨name, c⟩ := hd
    simp only [loadConfig]
    cases hv : (normalizeConfig root c).validate with
    | some e => simp [isOkE, hv]
    | none =>
      cases hr : loadConfig root rest with
      | error e =>
        rw [hr] at ih
        simp only [isOkE, List.forall_mem_cons] at ih ⊢
        constructor
        · intro h; exact absurd h (by decide)
        · intro h; exact ih.mpr h.2
      | ok v =>
        rw [hr] at ih
        simp only [isOkE, List.forall_mem_cons] at ih ⊢
        constructor
        · intro h; exact ⟨hv, ih.mp trivial⟩
        · intro h; trivial

/-- C8: descriptor validation passes exactly when the load invariants hold
    (recognised kind; non-empty path and positive port for the local kinds;
    non-empty template containing the braced port placeholder for command;
    non-empty address for remote), and catalog load succeeds exactly when
    every contained (normalised) descriptor validates. -/
theorem c8_validate_and_load (p : PluginConfig) :
    (p.validate = none ↔ loadInvariants p) ∧
    (∀ (root : String) (entries : List (String × PluginConfig)),
      isOkE (loadConfig root entries) = true ↔
        ∀ e ∈ entries, (normalizeConfig root e.2).validate = none) :=
  ⟨validate_iff_invariants p, loadConfig_ok_iff⟩

theorem c8_witness :
    cfgBin.validate = none ∧
    isOkE (loadConfig "/ws" [("hello", cfgBin)]) = true :=
  ⟨(c8_validate_and_load cfgBin).1.mpr (by constructor <;> simp [cfgBin] <;> decide),
   ((c8_validate_and_load cfgBin).2 "/ws" [("hello", cfgBin)]).mpr (by decide)⟩

/-- Modelled on the specification's launcher wording: the full argv for a
    binary descriptor is the path, the port flag and value, then one formatted
    token per extra parameter; for a command descriptor it is the
    whitespace-split of the template after substituting the braced port, path
    and args placeholders, an empty split being an error. -/
def argvSpec (p : PluginConfig) (port : Int) (args : List (String × String)) :
    Except GoError (List String) :=
  if p.type = PluginTypeBinary then
    Except.ok (p.path :: "-port" :: toString port :: args.map fmtArg)
  else if p.type = PluginTypeCommand then
    if p.command = "" then
      Except.error "command template not specified for command-type plugin"
    else
      let substituted := ((p.command.replace "{port}" (toString port)).replace
        "{path}" p.path).replace "{args}"
        (String.intercalate " " (args.map fmtArg))
      if goFields substituted = [] then
        Except.error "empty command after template substitution"
      else Except.ok (goFields substituted)
  else Except.error ("unsupported plugin type: " ++ p.type)

/-- C9: GetStartCommand refines the specification's argv description — the
    command plus argument list it returns, flattened to a full argv, agrees
    with the spec-side argv function on every descriptor, port and extra
    parameter list, errors included. -/
theorem c9_getStartCommand_refines_argv (p : PluginConfig) (port : Int)
    (args : List (String × String)) :
    (p.getStartCommand port args).map (fun ca => ca.1 :: ca.2) =
      argvSpec p port args := by
  simp only [PluginConfig.getStartCommand, argvSpec]
  by_cases hb : p.type = PluginTypeBinary
  · simp [hb, Except.map]
  · by_cases hc : p.type = PluginTypeCommand
    · simp only [if_neg hb, if_pos hc]
      by_cases hcmd : p.command = ""
      · simp [hcmd, Except.map]
      · simp only [if_neg hcmd]
        cases hf : goFields (((p.command.replace "{port}" (toString port)).replace
            "{path}" p.path).replace "{args}"
            (String.intercalate " " (args.map fmtArg))) with
        | nil => simp [hf, Except.map]
        | cons c0 restTokens => simp [hf, Except.map]
    · simp [hb, hc, Except.map]

/-- ExecutionSummary from pkg/plugin types: the error field is a Go error
    value; duration and metric floats are embedded as rationals. -/
structure ExecutionSummary where
  pluginName : String
  startTime : Int
  endTime : Int
  duration : Rat
  success : Bool
  error : Option GoError
  metadata : List (String × String)
  metrics : List (String × Rat)
  deriving DecidableEq, Repr

/-- SummaryRequest on the wire (proto): the error travels as a plain string. -/
structure SummaryRequest where
  pluginName : String
  startTime : Int
  endTime : Int
  success : Bool
  error : String
  metadata : List (String × String)
  metrics : List (String × Rat)
  deriving DecidableEq, Repr

/-- SummaryResponse on the wire (proto). -/
structure SummaryResponse where
  pluginName : String
  startTime : Int
  endTime : Int
  duration : Rat
  success : Bool
  error : String
  metadata : List (String × String)
  metrics : List (String × Rat)
  deriving DecidableEq, Repr

/-- Go fmt.Errorf applied to a plain message string: always a non-nil error
    whose message is that string, even when the string is empty. -/
def goFmtErrorf (s : String) : Option GoError := some s

/-- The error argument Server.ReportExecutionSummary hands to the plugin
    implementation: fmt.Errorf(req.Error), built unconditionally. -/
def summaryImplErr (req : SummaryRequest) : Option GoError := goFmtErrorf req.error

/-- Server.ReportExecutionSummary: call the implementation with the request
    fields (the error argument from summaryImplErr) and translate the returned
    summary, a nil summary error encoding as the empty string. -/
def serverReportExecutionSummary
    (impl : Int → Int → Bool → Option GoError → List (String × String) →
      List (String × Rat) → Except GoError ExecutionSummary)
    (req : SummaryRequest) : Except GoError SummaryResponse :=
  match impl req.startTime req.endTime req.success (summaryImplErr req)
      req.metadata req.metrics with
  | Except.error e => Except.error e
  | Except.ok summary =>
    Except.ok
      { pluginName := summary.pluginName
        startTime := summary.startTime
        endTime := summary.endTime
        duration := summary.duration
        success := summary.success
        error := match summary.error with | some e => e | none => ""
        metadata := summary.metadata
        metrics := summary.metrics }

/-- Client.ReportExecutionSummary response handling: a Go error is fabricated
    from the response error field only when that field is non-empty. -/
def clientDecodeSummaryErr (respError : String) : Option GoError :=
  if respError ≠ "" then some respError else none

/-- C7: at the failing input — a SummaryRequest whose error field is the empty
    string — the server skeleton hands the plugin implementation
    fmt.Errorf("") — a non-nil error with an empty message — instead of the
    nil error the claim requires, while the client side does decode an empty
    response error field to the nil error. -/
theorem c7_empty_error_fabricated :
    summaryImplErr { pluginName := "p", startTime := 0, endTime := 1
                     success := true, error := "", metadata := [], metrics := [] } =
      some "" ∧
    (some "" : Option GoError) ≠ none ∧
    clientDecodeSummaryErr "" = none := by
  decide

/-- Result of one liveness probe attempt (each is issued with a 5-second
    per-attempt timeout): the call returned SERVING, returned another status
    with a nil error, or failed. -/
inductive ProbeResult where
  | serving
  | notServing
  | probeError (msg : String)
  deriving DecidableEq, Repr

/-- The probe outcome the Go code treats as healthy. -/
def probeOk : ProbeResult → Bool
  | ProbeResult.serving => true
  | _ => false

/-- The message recorded in the loop's error variable when an attempt is not
    healthy (the Go code formats the gRPC error, a nil error printing as the
    bracketed nil). -/
def probeErrMsg : ProbeResult → String
  | ProbeResult.probeError m => "health check failed: " ++ m
  | _ => "health check failed: <nil>"

/-- Observable events inside one Health Monitor tick. -/
inductive TickEvent where
  | probe (r : ProbeResult)
  | sleepRetryDelay
  | callback (err : GoError)
  deriving DecidableEq, Repr

/-- Retry loop of one tick of MonitorPluginHealth: `fuel` remaining attempts
    (max_retries at entry), `i` the attempt index; a healthy probe clears the
    error and breaks; a failed attempt records the message and sleeps
    retry_delay before the next. The fuel-0 base keeps the nil initialisation
    of the loop's error variable. -/
def tickAttempts (probes : Nat → ProbeResult) :
    Nat → Nat → List TickEvent × Option GoError
  | 0, _ => ([], none)
  | fuel + 1, i =>
    if probeOk (probes i) then ([TickEvent.probe (probes i)], none)
    else
      let r := tickAttempts probes fuel (i + 1)
      (TickEvent.probe (probes i) :: TickEvent.sleepRetryDelay :: r.1,
       if fuel = 0 then some (probeErrMsg (probes i)) else r.2)

/-- One Health Monitor tick: run the retry loop; when it ends with an error
    and an on_unhealthy callback is installed, invoke it once with that
    error. -/
def runTick (maxRetries : Nat) (probes : Nat → ProbeResult)
    (callbackSet : Bool) : List TickEvent :=
  let r := tickAttempts probes maxRetries 0
  match r.2, callbackSet with
  | some e, true => r.1 ++ [TickEvent.callback e]
  | _, _ => r.1

/-- Scheduler events the monitor's outer select loop handles. -/
inductive MonitorEvent where
  | cancelled
  | tick (probes : Nat → ProbeResult)

/-- MonitorPluginHealth outer loop: process scheduler events in order,
    returning (terminating) at a context cancellation and running one tick per
    ticker firing. The Bool reports whether the monitor returned. -/
def monitorRun (maxRetries : Nat) (callbackSet : Bool) :
    List MonitorEvent → List TickEvent × Bool
  | [] => ([], false)
  | MonitorEvent.cancelled :: _ => ([], true)
  | MonitorEvent.tick probes :: rest =>
    let r := monitorRun maxRetries callbackSet rest
    (runTick maxRetries probes callbackSet ++ r.1, r.2)

/-- Probe-attempt events in a trace. -/
def probeCount : List TickEvent → Nat
  | [] => 0
  | TickEvent.probe _ :: rest => probeCount rest + 1
  | _ :: rest => probeCount rest

/-- Callback invocations in a trace. -/
def callbackCount : List TickEvent → Nat
  | [] => 0
  | TickEvent.callback _ :: rest => callbackCount rest + 1
  | _ :: rest => callbackCount rest

/-- Retry-delay sleeps in a trace. -/
def sleepCount : List TickEvent → Nat
  | [] => 0
  | TickEvent.sleepRetryDelay :: rest => sleepCount rest + 1
  | _ :: rest => sleepCount rest

theorem probeCount_append (a b : List TickEvent) :
    probeCount (a ++ b) = probeCount a + probeCount b := by
  induction a with
  | nil => simp [probeCount]
  | cons x rest ih => cases x <;> simp [probeCount, ih] <;> omega

theorem callbackCount_append (a b : List TickEvent) :
    callbackCount (a ++ b) = callbackCount a + callbackCount b := by
  induction a with
  | nil => simp [callbackCount]
  | cons x rest ih => cases x <;> simp [callbackCount, ih] <;> omega

theorem sleepCount_append (a b : List TickEvent) :
    sleepCount (a ++ b) = sleepCount a + sleepCount b := by
  induction a with
  | nil => simp [sleepCount]
  | cons x rest ih => cases x <;> simp [sleepCount, ih] <;> omega

/-- C6 counterexample: with the installed configuration (max_retries = 3) and
    every probe failing, one tick makes exactly 3 probe attempts in total
    before invoking on_unhealthy — not the 4 (one initial probe plus up to 3
    retries) the claim describes. -/
theorem c6_counterexample :
    probeCount (runTick 3 (fun _ => ProbeResult.probeError "connection refused")
      true) = 3 ∧
    callbackCount (runTick 3 (fun _ => ProbeResult.probeError "connection refused")
      true) = 1 ∧
    (3 : Nat) ≠ 1 + 3 := by
  decide

theorem tickAttempts_counts (probes : Nat → ProbeResult) :
    ∀ fuel i, probeCount (tickAttempts probes fuel i).1 ≤ fuel ∧
      callbackCount (tickAttempts probes fuel i).1 = 0 := by
  intro fuel
  induction fuel with
  | zero => intro i; exact ⟨Nat.le_refl 0, rfl⟩
  | succ f ih =>
    intro i
    obtain ⟨ih1, ih2⟩ := ih (i + 1)
    by_cases h : probeOk (probes i) = true
    · constructor <;> simp [tickAttempts, h, probeCount, callbackCount]
    · have h0 : probeOk (probes i) = false := by
        revert h; cases probeOk (probes i) <;> simp
      constructor
      · simp only [tickAttempts, h0, Bool.false_eq_true, if_false]
        simp [probeCount]
        omega
      · simp only [tickAttempts, h0, Bool.false_eq_true, if_false]
        simp [callbackCount]
        exact ih2

theorem tickAttempts_exhaust (probes : Nat → ProbeResult) :
    ∀ fuel i, 0 < fuel → (∀ j, j < fuel → probeOk (probes (i + j)) = false) →
      ∃ e, (tickAttempts probes fuel i).2 = some e := by
  intro fuel
  induction fuel with
  | zero => intro i h _; exact absurd h (by omega)
  | succ f ih =>
    intro i _ hfail
    have h0 : probeOk (probes i) = false := by
      simpa using hfail 0 (by omega)
    by_cases hf : f = 0
    · subst hf
      exact ⟨probeErrMsg (probes i), by simp [tickAttempts, h0]⟩
    · obtain ⟨e, he⟩ := ih (i + 1) (by omega) (fun j hj => by
        have h2 := hfail (j + 1) (by omega)
        have heq : i + (j + 1) = i + 1 + j := by omega
        rwa [heq] at h2)
      exact ⟨e, by simp [tickAttempts, h0, hf, he]⟩

theorem tickAttempts_first_serving (probes : Nat → ProbeResult) :
    ∀ k fuel i, k < fuel → (∀ j, j < k → probeOk (probes (i + j)) = false) →
      probeOk (probes (i + k)) = true →
      probeCount (tickAttempts probes fuel i).1 = k + 1 ∧
      (tickAttempts probes fuel i).2 = none := by
  intro k
  induction k with
  | zero =>
    intro fuel i hk _ hs
    obtain ⟨f, rfl⟩ : ∃ f, fuel = f + 1 := ⟨fuel - 1, by omega⟩
    rw [Nat.add_zero] at hs
    constructor <;> simp [tickAttempts, hs, probeCount]
  | succ k1 ih =>
    intro fuel i hk hfail hs
    obtain ⟨f, rfl⟩ : ∃ f, fuel = f + 1 := ⟨fuel - 1, by omega⟩
    have h0 : probeOk (probes i) = false := by
      simpa using hfail 0 (by omega)
    have hrec := ih f (i + 1) (by omega)
      (fun j hj => by
        have h2 := hfail (j + 1) (by omega)
        have heq : i + (j + 1) = i + 1 + j := by omega
        rwa [heq] at h2)
      (by
        have heq : i + (k1 + 1) = i + 1 + k1 := by omega
        rwa [heq] at hs)
    have hf : ¬ f = 0 := by omega
    constructor
    · simp only [tickAttempts, h0, Bool.false_eq_true, if_false]
      simp [probeCount, hrec.1]
    · simp only [tickAttempts, h0, Bool.false_eq_true, if_false]
      simp [hf, hrec.2]

theorem tickAttempts_sleeps (probes : Nat → ProbeResult) :
    ∀ fuel i, (∀ j, j < fuel → probeOk (probes (i + j)) = false) →
      sleepCount (tickAttempts probes fuel i).1 = fuel := by
  intro fuel
  induction fuel with
  | zero => intro i _; rfl
  | succ f ih =>
    intro i hfail
    have h0 : probeOk (probes i) = false := by
      simpa using hfail 0 (by omega)
    have hrec := ih (i + 1) (fun j hj => by
      have h2 := hfail (j + 1) (by omega)
      have heq : i + (j + 1) = i + 1 + j := by omega
      rwa [heq] at h2)
    simp only [tickAttempts, h0, Bool.false_eq_true, if_false]
    simp [sleepCount, hrec]

/-- C6 amended: on each tick the monitor makes at most max_retries probe
    attempts in total (the first attempt counts against the retry budget) and
    invokes the callback at most once; when every attempt of the tick fails,
    on_unhealthy fires exactly once, after a retry_delay sleep following every
    failed attempt including the last; when attempt k is the first to return
    SERVING, exactly k+1 probes are made and no callback fires for that tick;
    and the outer loop returns as soon as it sees the supervisor's context
    cancelled. -/
theorem c6_tick_and_cancel :
    (∀ (m : Nat) (probes : Nat → ProbeResult) (cb : Bool),
      probeCount (runTick m probes cb) ≤ m ∧
      callbackCount (runTick m probes cb) ≤ 1) ∧
    (∀ (m : Nat) (probes : Nat → ProbeResult), 0 < m →
      (∀ j, j < m → probeOk (probes j) = false) →
      callbackCount (runTick m probes true) = 1 ∧
      sleepCount (runTick m probes true) = m) ∧
    (∀ (m k : Nat) (probes : Nat → ProbeResult) (cb : Bool), k < m →
      (∀ j, j < k → probeOk (probes j) = false) → probeOk (probes k) = true →
      probeCount (runTick m probes cb) = k + 1 ∧
      callbackCount (runTick m probes cb) = 0) ∧
    (∀ (m : Nat) (cb : Bool) (rest : List MonitorEvent),
      monitorRun m cb (MonitorEvent.cancelled :: rest) = ([], true)) := by
  refine ⟨?_, ?_, ?_, ?_⟩
  · intro m probes cb
    obtain ⟨hp, hcb⟩ := tickAttempts_counts probes m 0
    cases h2 : (tickAttempts probes m 0).2 with
    | none =>
      cases cb <;> simp [runTick, h2] <;> exact ⟨hp, by omega⟩
    | some e =>
      cases cb
      · simp [runTick, h2]
        exact ⟨hp, by omega⟩
      · simp [runTick, h2, probeCount_append, callbackCount_append,
          probeCount, callbackCount]
        exact ⟨by omega, by omega⟩
  · intro m probes hpos hfail
    obtain ⟨hp, hcb⟩ := tickAttempts_counts probes m 0
    obtain ⟨e, he⟩ := tickAttempts_exhaust probes m 0 hpos (fun j hj => by
      rw [Nat.zero_add]; exact hfail j hj)
    have hsl := tickAttempts_sleeps probes m 0 (fun j hj => by
      rw [Nat.zero_add]; exact hfail j hj)
    simp [runTick, he, callbackCount_append, sleepCount_append,
      callbackCount, sleepCount]
    exact ⟨hcb, hsl⟩
  · intro m k probes cb hk hfail hs
    have hrec := tickAttempts_first_serving probes k m 0 hk
      (fun j hj => by rw [Nat.zero_add]; exact hfail j hj)
      (by rw [Nat.zero_add]; exact hs)
    obtain ⟨hp, hcb⟩ := tickAttempts_counts probes m 0
    cases cb <;> simp [runTick, hrec.2] <;> exact ⟨hrec.1, hcb⟩
  · intro m cb rest
    rfl

theorem c6_witness :
    callbackCount (runTick 3 (fun _ => ProbeResult.notServing) true) = 1 ∧
    sleepCount (runTick 3 (fun _ => ProbeResult.notServing) true) = 3 :=
  c6_tick_and_cancel.2.1 3 (fun _ => ProbeResult.notServing) (by decide)
    (fun j hj => rfl)

/-- How the plugin implementation's execute returns to the skeleton: cleanly,
    with a plain error, or with the handled sentinel (the already-surfaced
    error the stream-backed sink returned from on_error). -/
inductive ImplOutcome where
  | ok
  | fail (msg : String)
  | handled (msg : String)
  deriving DecidableEq, Repr

/-- A plugin implementation as the server skeleton sees it: its parameter
    validation, and — once validation passed — the sink calls its execute
    makes together with how it returns. -/
structure ServerImpl where
  validate : List (String × String) → Option GoError
  run : List (String × String) → List HandlerCall × ImplOutcome

/-- The frame the stream-backed sink sends for one sink call. -/
def sinkCallFrame : HandlerCall → Frame
  | HandlerCall.onOutput text => Frame.output text
  | HandlerCall.onProgress p => Frame.progress p
  | HandlerCall.onError code message details => Frame.error code message details

/-- Server.Execute: validate the parameters first — a failure sends a single
    INVALID_PARAMETERS error frame (message only) and the implementation never
    runs; otherwise run the implementation behind the stream-backed sink, and
    append an EXECUTION_ERROR frame only when it returns an error that is not
    the handled sentinel. The Bool reports whether the implementation ran. -/
def serverExecute (impl : ServerImpl) (params : List (String × String)) :
    List Frame × Bool :=
  match impl.validate params with
  | some e => ([Frame.error "INVALID_PARAMETERS" e ""], false)
  | none =>
    let r := impl.run params
    match r.2 with
    | ImplOutcome.ok => (r.1.map sinkCallFrame, true)
    | ImplOutcome.fail msg =>
      (r.1.map sinkCallFrame ++ [Frame.error "EXECUTION_ERROR" msg ""], true)
    | ImplOutcome.handled _ => (r.1.map sinkCallFrame, true)

/-- PluginInfo as returned by get_info. -/
structure PluginInfo where
  name : String
  version : String
  description : String
  parameterSchema : List (String × ParameterSpec)
  deriving DecidableEq, Repr

/-- Host-side steps of the execution coordinator, in order. -/
inductive HostEvent where
  | validateDescriptor (c : PluginConfig)
  | startCall (name : String)
  | getInfoCall
  | executeRPC (params : List (String × String))
  | reportSummaryCall (success : Bool)
  deriving DecidableEq, Repr

/-- Oracle for the environment-dependent outcomes of one coordinator run. -/
structure HostOracle where
  launch : LaunchOracle
  getInfo : Except GoError PluginInfo
  openErr : Option GoError
  frames : List Frame
  terminal : Terminal
  ctxCancelled : Bool

/-- Default merging of ExecutePlugin: for every schema entry absent from the
    caller's parameters, fall back to the descriptor default and then to a
    non-empty schema default, else leave the name absent. -/
def mergeDefaults (schema : List (String × ParameterSpec))
    (configDefaults : List (String × String))
    (params : List (String × String)) : List (String × String) :=
  match schema with
  | [] => params
  | (name, spec) :: rest =>
    let params1 :=
      if (mapLookup params name).isSome then params
      else
        match mapLookup configDefaults name with
        | some d => params ++ [(name, d)]
        | none =>
          if spec.defaultValue ≠ "" then params ++ [(name, spec.defaultValue)]
          else params
    mergeDefaults rest configDefaults params1

/-- ExecutePlugin, the execution coordinator: look the descriptor up and
    validate it, start the plugin on a fresh manager, fetch the schema, merge
    defaults into the parameters, call Execute with the application's sink,
    report the summary, and apply the error policy (a cancelled context is not
    a failure). The event list records the host-side steps taken; note there
    is no host-side parameter-validation step. -/
def executePlugin (config : List (String × PluginConfig)) (pluginName : String)
    (params : List (String × String)) (o : HostOracle) :
    List HostEvent × Option GoError :=
  match mapLookup config pluginName with
  | none =>
    ([], some ("plugin \"" ++ pluginName ++ "\" not found in configuration"))
  | some pluginConfig =>
    match pluginConfig.validate with
    | some e =>
      ([HostEvent.validateDescriptor pluginConfig],
       some ("invalid plugin configuration for " ++ pluginName ++ ": " ++ e))
    | none =>
      let startRes := startPlugin { plugins := [] } pluginName pluginConfig
        params o.launch
      match startRes.2.2 with
      | some e =>
        ([HostEvent.validateDescriptor pluginConfig,
          HostEvent.startCall pluginName],
         some ("failed to start plugin " ++ pluginName ++ ": " ++ e))
      | none =>
        match o.getInfo with
        | Except.error e =>
          ([HostEvent.validateDescriptor pluginConfig,
            HostEvent.startCall pluginName, HostEvent.getInfoCall],
           some ("failed to get plugin info: " ++ e))
        | Except.ok info =>
          let merged := mergeDefaults info.parameterSchema
            pluginConfig.defaults params
          let execRes := clientExecute uiOutputHandler o.openErr o.frames
            o.terminal
          let events := [HostEvent.validateDescriptor pluginConfig,
            HostEvent.startCall pluginName, HostEvent.getInfoCall,
            HostEvent.executeRPC merged,
            HostEvent.reportSummaryCall execRes.result.isNone]
          match execRes.result with
          | none => (events, none)
          | some e =>
            if o.ctxCancelled then (events, none)
            else (events,
              some ("plugin " ++ pluginName ++ " execution failed: " ++ e))

def schemaC2 : List (String × ParameterSpec) :=
  [("x", { name := "x", description := "", required := true, defaultValue := ""
           typeTag := "string", allowedValues := [] })]

def infoC2 : PluginInfo :=
  { name := "p", version := "1", description := "", parameterSchema := schemaC2 }

def oracleC2 : HostOracle :=
  { launch := oracleOk, getInfo := Except.ok infoC2, openErr := none
    frames := [], terminal := Terminal.eof, ctxCancelled := false }

/-- C2 counterexample: with a valid binary descriptor, a schema with a
    required parameter and an empty caller parameter map, the coordinator
    issues the Execute RPC with the (schema-invalid) merged map — there is no
    host-side parameter validation and no fast fail before the stream is
    opened. -/
theorem c2_counterexample :
    HostEvent.executeRPC [] ∈ (executePlugin [("p", cfgBin)] "p" [] oracleC2).1 ∧
    validateParameters infoC2.parameterSchema [] =
      some (ValidationError.missingRequired "x") := by
  decide

/-- C2 amended: parameter validation happens once, plugin-side — the server
    skeleton validates before the implementation runs, rejecting a failure
    with a single INVALID_PARAMETERS frame — while the host validates only the
    descriptor and issues the Execute RPC with the merged parameter map
    whether or not it satisfies the schema. -/
theorem c2_validation_once_plugin_side :
    (∀ (impl : ServerImpl) (params : List (String × String)) (e : GoError),
      impl.validate params = some e →
      serverExecute impl params = ([Frame.error "INVALID_PARAMETERS" e ""], false)) ∧
    (∀ (impl : ServerImpl) (params : List (String × String)),
      impl.validate params = none → (serverExecute impl params).2 = true) ∧
    (∀ (config : List (String × PluginConfig)) (name : String)
        (params : List (String × String)) (o : HostOracle)
        (pc : PluginConfig) (info : PluginInfo),
      mapLookup config name = some pc →
      pc.validate = none →
      (startPlugin { plugins := [] } name pc params o.launch).2.2 = none →
      o.getInfo = Except.ok info →
      HostEvent.executeRPC (mergeDefaults info.parameterSchema pc.defaults params)
        ∈ (executePlugin config name params o).1) := by
  refine ⟨?_, ?_, ?_⟩
  · intro impl params e h
    simp [serverExecute, h]
  · intro impl params h
    cases hr : (impl.run params).2 <;> simp [serverExecute, h, hr]
  · intro config name params o pc info h1 h2 h3 h4
    simp only [executePlugin, h1, h2, h3, h4]
    cases hres : (clientExecute uiOutputHandler o.openErr o.frames o.terminal).result with
    | none => simp [hres]
    | some e =>
      cases hc : o.ctxCancelled <;> simp [hres, hc]

theorem c2_witness :
    serverExecute
        { validate := fun ps =>
            if (mapLookup ps "x").isSome then none
            else some "missing required parameter: x"
          run := fun _ => ([], ImplOutcome.ok) } [] =
      ([Frame.error "INVALID_PARAMETERS" "missing required parameter: x" ""],
       false) ∧
    HostEvent.executeRPC (mergeDefaults infoC2.parameterSchema cfgBin.defaults [])
      ∈ (executePlugin [("p", cfgBin)] "p" [] oracleC2).1 :=
  ⟨c2_validation_once_plugin_side.1
      { validate := fun ps =>
          if (mapLookup ps "x").isSome then none
          else some "missing required parameter: x"
        run := fun _ => ([], ImplOutcome.ok) } [] "missing required parameter: x"
      (by decide),
   c2_validation_once_plugin_side.2.2 [("p", cfgBin)] "p" [] oracleC2 cfgBin
      infoC2 (by decide) (by decide) (by decide) (by rfl)⟩

end PluginApp
